import Mathlib

/-!
# Intel Thread Director kernel module (`itd-kmod/itd.c`)

A shallow embedding of the two entry points of the module, `itd_init` and
`itd_exit`.  Both walk over the possible CPUs and perform a read-modify-write
of bit 0 of the model-specific register `IA32_HW_FEEDBACK_THREAD_CONFIG`.

* Machine integers are natural numbers; a `u64` is a natural number below
  `2 ^ 64`, and the places where C truncates or converts are written out.
* The machine state is passed explicitly: the MSR file of every CPU together
  with the log of all register accesses issued so far.
* The kernel's `rdmsrl_on_cpu` / `wrmsrl_on_cpu` may fail; which access fails
  is decided by an `Accessor`, a parameter of every definition.
-/

namespace ITD

/-! ## Data model -/

/-- Number of values of a `u64`. -/
def U64_MOD : Nat := 2 ^ 64

/-- Line 14: `static const u32 IA32_HW_FEEDBACK_THREAD_CONFIG = 0x17D4;` -/
def IA32_HW_FEEDBACK_THREAD_CONFIG : Nat := 0x17D4

/-- The errno the kernel's accessors return for a CPU that cannot be reached
(the module never inspects it). -/
def ENXIO_errno : Int := 6

/-- C operator `~` applied to an `int` (two's complement). -/
def int_not (x : Int) : Int := -x - 1

/-- C conversion of an `int` operand to `u64` (value modulo `2 ^ 64`), as it
happens to the right operand of `val &= ~0x1`. -/
def int_to_u64 (x : Int) : Nat := (x % (2 ^ 64 : Int)).toNat

/-- One register access issued by the module, as seen by the register
accessor: who was addressed, which MSR, the value (for a write) and whether
the access succeeded. -/
inductive Access where
  | rd (cpu msr_no : Nat) (ok : Bool)
  | wr (cpu msr_no val : Nat) (ok : Bool)
  deriving DecidableEq

/-- Is the access a write? -/
def Access.is_wr : Access → Bool
  | .rd _ _ _ => false
  | .wr _ _ _ _ => true

/-- The CPU an access addresses. -/
def Access.cpu_of : Access → Nat
  | .rd cpu _ _ => cpu
  | .wr cpu _ _ _ => cpu

/-- Machine state: `msr cpu msr_no` is the content of register `msr_no` on
logical processor `cpu`; `log` lists every access issued so far, oldest
first. -/
structure Machine where
  msr : Nat → Nat → Nat
  log : List Access

/-- Failure behaviour of the register accessor.  `rd_ok t cpu` tells whether a
read addressed to `cpu` succeeds when it is the access number `t` (counting
all accesses logged so far); `wr_ok t cpu` likewise for a write. -/
structure Accessor where
  rd_ok : Nat → Nat → Bool
  wr_ok : Nat → Nat → Bool

/-- The write accesses of a log, in order. -/
def wr_log (l : List Access) : List Access := l.filter Access.is_wr

/-! ## The register accessor (kernel side) -/

/-- Modelled from the spec: the kernel's `rdmsrl_on_cpu(cpu, msr_no, &q)` is not
part of this repository.  Section 6 of the specification: it reads the 64-bit
value of the register on the named processor and may fail for that processor,
reporting the failure as a status.  On success the status is `0` and the `u64`
destination receives the register content; on failure the status is
`-ENXIO_errno` and the destination keeps the value it had.  The access is
logged. -/
def rdmsrl_on_cpu (acc : Accessor) (cpu msr_no : Nat) (q : Nat) (s : Machine) :
    Int × Nat × Machine :=
  if acc.rd_ok s.log.length cpu then
    (0, s.msr cpu msr_no % U64_MOD, { s with log := s.log ++ [Access.rd cpu msr_no true] })
  else
    (-ENXIO_errno, q, { s with log := s.log ++ [Access.rd cpu msr_no false] })

/-- Modelled from the spec: the kernel's `wrmsrl_on_cpu(cpu, msr_no, q)` is not
part of this repository.  Section 6 of the specification: it writes a 64-bit
value to the register on the named processor and may fail for that processor.
On success the status is `0` and exactly that one register is replaced; on
failure the status is `-ENXIO_errno` and no register changes.  The access is
logged. -/
def wrmsrl_on_cpu (acc : Accessor) (cpu msr_no : Nat) (q : Nat) (s : Machine) :
    Int × Machine :=
  if acc.wr_ok s.log.length cpu then
    (0, { msr := fun c m => if c = cpu ∧ m = msr_no then q % U64_MOD else s.msr c m,
          log := s.log ++ [Access.wr cpu msr_no q true] })
  else
    (-ENXIO_errno, { s with log := s.log ++ [Access.wr cpu msr_no q false] })

/-! ## The module (`itd.c`) -/

/-- Modelled from the spec: the kernel macro `for_each_possible_cpu(cpu) { body }`
and the mask of possible CPUs it walks are not part of this repository.
Sections 4.2 and 6 of the specification: the processor enumerator supplies the
processors, and the body runs once for each of them.  The enumeration is the
list argument; the body runs for its members one after the other. -/
def for_each_possible_cpu (body : Nat → Machine → Machine) : List Nat → Machine → Machine
  | [], s => s
  | cpu :: rest, s => for_each_possible_cpu body rest (body cpu s)

/-- Lines 20-25, the loop body of `itd_init`:
```
u64 val = 0;
rdmsrl_on_cpu(cpu, IA32_HW_FEEDBACK_THREAD_CONFIG, &val);
if ((val & 0x1) == 0x0) {
    val |= 0x1;
    wrmsrl_on_cpu(cpu, IA32_HW_FEEDBACK_THREAD_CONFIG, val);
}
```
The status of both accessor calls is discarded. -/
def itd_init_body (acc : Accessor) (cpu : Nat) (s : Machine) : Machine :=
  let val : Nat := 0
  let r := rdmsrl_on_cpu acc cpu IA32_HW_FEEDBACK_THREAD_CONFIG val s
  let val := r.2.1
  let s := r.2.2
  if val &&& 0x1 = 0x0 then
    let val := (val ||| 0x1) % U64_MOD
    (wrmsrl_on_cpu acc cpu IA32_HW_FEEDBACK_THREAD_CONFIG val s).2
  else
    s

/-- Lines 35-40, the loop body of `itd_exit`:
```
u64 val = 0;
rdmsrl_on_cpu(cpu, IA32_HW_FEEDBACK_THREAD_CONFIG, &val);
if ((val & 0x1) == 0x1) {
    val &= ~0x1;
    wrmsrl_on_cpu(cpu, IA32_HW_FEEDBACK_THREAD_CONFIG, val);
}
```
`~0x1` is computed on `int` and then converted to `u64`. -/
def itd_exit_body (acc : Accessor) (cpu : Nat) (s : Machine) : Machine :=
  let val : Nat := 0
  let r := rdmsrl_on_cpu acc cpu IA32_HW_FEEDBACK_THREAD_CONFIG val s
  let val := r.2.1
  let s := r.2.2
  if val &&& 0x1 = 0x1 then
    let val := (val &&& int_to_u64 (int_not 0x1)) % U64_MOD
    (wrmsrl_on_cpu acc cpu IA32_HW_FEEDBACK_THREAD_CONFIG val s).2
  else
    s

/-- Lines 16-29, `static int itd_init(void)`: the loop over the possible CPUs
followed by `return 0;`.  `cpus` is what `for_each_possible_cpu` enumerates. -/
def itd_init (acc : Accessor) (cpus : List Nat) (s : Machine) : Int × Machine :=
  (0, for_each_possible_cpu (itd_init_body acc) cpus s)

/-- Lines 31-42, `static void itd_exit(void)`. -/
def itd_exit (acc : Accessor) (cpus : List Nat) (s : Machine) : Machine :=
  for_each_possible_cpu (itd_exit_body acc) cpus s

/-- One toggle step for a desired bit value: the loop body of `itd_init` for
`v = 1` (`true`), the loop body of `itd_exit` for `v = 0` (`false`). -/
def toggle_step (acc : Accessor) (v : Bool) (cpu : Nat) (s : Machine) : Machine :=
  if v then itd_init_body acc cpu s else itd_exit_body acc cpu s

/-- The accessor under which every access succeeds. -/
def all_ok : Accessor := { rd_ok := fun _ _ => true, wr_ok := fun _ _ => true }

/-- An accessor whose outcome depends on the addressed CPU only: accesses to
a CPU for which `bad` holds fail, all others succeed. -/
def fail_on (bad : Nat → Bool) : Accessor :=
  { rd_ok := fun _ cpu => !bad cpu, wr_ok := fun _ cpu => !bad cpu }

/-- A machine whose registers are given by a list: CPU `i` holds `vals[i]` in
`IA32_HW_FEEDBACK_THREAD_CONFIG`; every other register is `0`; empty log. -/
def machine_of (vals : List Nat) : Machine :=
  { msr := fun c m => if m = IA32_HW_FEEDBACK_THREAD_CONFIG then vals.getD c 0 else 0,
    log := [] }

/-- The content of `IA32_HW_FEEDBACK_THREAD_CONFIG` on a CPU. -/
def Machine.cfg (s : Machine) (cpu : Nat) : Nat := s.msr cpu IA32_HW_FEEDBACK_THREAD_CONFIG

/-- The enumerated processors hold a `u64` in the configuration register. -/
def u64_on (cpus : List Nat) (s : Machine) : Prop := ∀ c ∈ cpus, s.cfg c < U64_MOD

instance u64_on_decidable (cpus : List Nat) (s : Machine) : Decidable (u64_on cpus s) :=
  inferInstanceAs (Decidable (∀ c ∈ cpus, s.cfg c < U64_MOD))

/-- The accessor under which every read fails and every write succeeds (a
processor that is unreachable for the read and reachable again for the
write). -/
def rd_fails_wr_ok : Accessor := { rd_ok := fun _ _ => false, wr_ok := fun _ _ => true }

/-! ### Reading the access log of one call -/

/-- The accesses a call added to the log: what the log of the state after the
call holds beyond the log of the state before it. -/
def accesses_since (s s1 : Machine) : List Access := s1.log.drop s.log.length

/-- The accesses of a trace that address a given CPU, in order. -/
def accesses_to (c : Nat) (l : List Access) : List Access := l.filter (fun a => a.cpu_of == c)

/-- The read accesses of a trace, in order. -/
def rd_log (l : List Access) : List Access := l.filter (fun a => !a.is_wr)

/-- One visit of processor `c` without retry: the accesses are one read of
`IA32_HW_FEEDBACK_THREAD_CONFIG` on `c`, followed by at most one write of that
register on `c`, and nothing else. -/
def one_visit (c : Nat) : List Access → Bool
  | [Access.rd c1 m1 _] => c1 == c && m1 == IA32_HW_FEEDBACK_THREAD_CONFIG
  | [Access.rd c1 m1 _, Access.wr c2 m2 _ _] =>
    c1 == c && m1 == IA32_HW_FEEDBACK_THREAD_CONFIG &&
      (c2 == c && m2 == IA32_HW_FEEDBACK_THREAD_CONFIG)
  | _ => false

/-! ### Closed forms of one loop iteration (used by the proofs) -/

/-- The local `val` after the read, for a read with outcome `rd` of a register
holding `R`. -/
def rd_val (rd : Bool) (R : Nat) : Nat := if rd then R % U64_MOD else 0

/-- Register content after one iteration of the `itd_init` loop. -/
def init_reg (rd wr : Bool) (R : Nat) : Nat :=
  if rd_val rd R &&& 0x1 = 0x0 ∧ wr = true then ((rd_val rd R ||| 0x1) % U64_MOD) % U64_MOD else R

/-- Accesses issued by one iteration of the `itd_init` loop. -/
def init_events (rd wr : Bool) (cpu R : Nat) : List Access :=
  Access.rd cpu IA32_HW_FEEDBACK_THREAD_CONFIG rd ::
    (if rd_val rd R &&& 0x1 = 0x0 then
      [Access.wr cpu IA32_HW_FEEDBACK_THREAD_CONFIG ((rd_val rd R ||| 0x1) % U64_MOD) wr]
     else [])

/-- Register content after one iteration of the `itd_exit` loop. -/
def exit_reg (rd wr : Bool) (R : Nat) : Nat :=
  if rd_val rd R &&& 0x1 = 0x1 ∧ wr = true then
    ((rd_val rd R &&& int_to_u64 (int_not 0x1)) % U64_MOD) % U64_MOD
  else R

/-- Accesses issued by one iteration of the `itd_exit` loop. -/
def exit_events (rd wr : Bool) (cpu R : Nat) : List Access :=
  Access.rd cpu IA32_HW_FEEDBACK_THREAD_CONFIG rd ::
    (if rd_val rd R &&& 0x1 = 0x1 then
      [Access.wr cpu IA32_HW_FEEDBACK_THREAD_CONFIG
        ((rd_val rd R &&& int_to_u64 (int_not 0x1)) % U64_MOD) wr]
     else [])

/-! ## Bit-level facts about the two updates -/

/-- The constant `~0x1`, converted to `u64`, is `0xFFFFFFFFFFFFFFFE`. -/
theorem not_one_as_u64 : int_to_u64 (int_not 0x1) = 0xFFFFFFFFFFFFFFFE := by
  decide

theorem testBit_mask (i : Nat) :
    (0xFFFFFFFFFFFFFFFE : Nat).testBit i = (decide (1 ≤ i) && decide (i < 64)) := by
  cases i with
  | zero => decide
  | succ j =>
    rw [Nat.testBit_succ]
    have h : (0xFFFFFFFFFFFFFFFE : Nat) / 2 = 2 ^ 63 - 1 := by norm_num
    rw [h, Nat.testBit_two_pow_sub_one]
    simp only [Nat.succ_le_succ (Nat.zero_le j), decide_True, Bool.true_and]
    exact decide_eq_decide.mpr (by omega)

theorem testBit_u64_high {R i : Nat} (hR : R < U64_MOD) (hi : 64 ≤ i) :
    R.testBit i = false := by
  apply Nat.testBit_lt_two_pow
  calc R < 2 ^ 64 := hR
    _ ≤ 2 ^ i := Nat.pow_le_pow_right (by decide) hi

theorem or_one_testBit_zero (R : Nat) : (R ||| 1).testBit 0 = true := by
  rw [Nat.testBit_lor]; simp

theorem or_one_testBit_succ (R i : Nat) (hi : 1 ≤ i) :
    (R ||| 1).testBit i = R.testBit i := by
  rw [Nat.testBit_lor]
  have h1 : (1 : Nat).testBit i = false := by
    apply Nat.testBit_lt_two_pow
    calc (1 : Nat) < 2 ^ 1 := by decide
      _ ≤ 2 ^ i := Nat.pow_le_pow_right (by decide) hi
  rw [h1, Bool.or_false]

theorem or_one_lt {R : Nat} (hR : R < U64_MOD) : R ||| 1 < U64_MOD :=
  Nat.or_lt_two_pow hR (by decide)

theorem and_mask_testBit_zero (R : Nat) : (R &&& 0xFFFFFFFFFFFFFFFE).testBit 0 = false := by
  rw [Nat.testBit_land, testBit_mask]; simp

theorem and_mask_testBit_succ {R : Nat} (hR : R < U64_MOD) (i : Nat) (hi : 1 ≤ i) :
    (R &&& 0xFFFFFFFFFFFFFFFE).testBit i = R.testBit i := by
  rw [Nat.testBit_land, testBit_mask]
  by_cases h64 : i < 64
  · simp [hi, h64]
  · rw [testBit_u64_high hR (Nat.le_of_not_lt h64)]; simp

theorem and_mask_lt (R : Nat) : R &&& 0xFFFFFFFFFFFFFFFE < U64_MOD :=
  Nat.and_lt_two_pow R (by decide)

/-- Setting a bit that is already set changes nothing. -/
theorem or_one_of_odd {R : Nat} (h : R % 2 = 1) : R ||| 1 = R := by
  apply Nat.eq_of_testBit_eq
  intro i
  cases i with
  | zero => rw [or_one_testBit_zero, Nat.testBit_zero]; simp [h]
  | succ j => exact or_one_testBit_succ R (j + 1) (Nat.succ_le_succ (Nat.zero_le j))

/-- Clearing a bit that is already clear changes nothing (on a `u64`). -/
theorem and_mask_of_even {R : Nat} (hR : R < U64_MOD) (h : R % 2 = 0) :
    R &&& 0xFFFFFFFFFFFFFFFE = R := by
  apply Nat.eq_of_testBit_eq
  intro i
  cases i with
  | zero => rw [and_mask_testBit_zero, Nat.testBit_zero]; simp [h]
  | succ j => exact and_mask_testBit_succ hR (j + 1) (Nat.succ_le_succ (Nat.zero_le j))

theorem or_one_mod_two (R : Nat) : (R ||| 1) % 2 = 1 := by
  have h := or_one_testBit_zero R
  rw [Nat.testBit_zero] at h
  exact of_decide_eq_true h

theorem and_mask_mod_two (R : Nat) : (R &&& 0xFFFFFFFFFFFFFFFE) % 2 = 0 := by
  have h := and_mask_testBit_zero R
  rw [Nat.testBit_zero] at h
  have h2 : ¬ ((R &&& 0xFFFFFFFFFFFFFFFE) % 2 = 1) := of_decide_eq_false h
  omega

/-! ## One loop iteration in closed form -/

theorem itd_init_body_eq (acc : Accessor) (cpu : Nat) (s : Machine) :
    itd_init_body acc cpu s =
      { msr := fun c m =>
          if c = cpu ∧ m = IA32_HW_FEEDBACK_THREAD_CONFIG then
            init_reg (acc.rd_ok s.log.length cpu) (acc.wr_ok (s.log.length + 1) cpu) (s.msr c m)
          else s.msr c m,
        log := s.log ++ init_events (acc.rd_ok s.log.length cpu)
          (acc.wr_ok (s.log.length + 1) cpu) cpu (s.cfg cpu) } := by
  unfold itd_init_body rdmsrl_on_cpu wrmsrl_on_cpu init_reg init_events rd_val Machine.cfg
  cases hrd : acc.rd_ok s.log.length cpu <;> cases hwr : acc.wr_ok (s.log.length + 1) cpu <;>
    simp [hrd, hwr]
  · by_cases h : s.msr cpu IA32_HW_FEEDBACK_THREAD_CONFIG % U64_MOD % 2 = 0 <;> simp [h]
  · by_cases h : s.msr cpu IA32_HW_FEEDBACK_THREAD_CONFIG % U64_MOD % 2 = 0
    · simp only [h, if_true, Machine.mk.injEq, and_true]
      funext c m
      by_cases hc : c = cpu ∧ m = IA32_HW_FEEDBACK_THREAD_CONFIG
      · obtain ⟨rfl, rfl⟩ := hc
        simp [h]
      · simp [hc]
    · simp only [h, if_false, Machine.mk.injEq, and_true]
      funext c m
      by_cases hc : c = cpu ∧ m = IA32_HW_FEEDBACK_THREAD_CONFIG
      · obtain ⟨rfl, rfl⟩ := hc
        simp [h]
      · simp [hc]

theorem itd_exit_body_eq (acc : Accessor) (cpu : Nat) (s : Machine) :
    itd_exit_body acc cpu s =
      { msr := fun c m =>
          if c = cpu ∧ m = IA32_HW_FEEDBACK_THREAD_CONFIG then
            exit_reg (acc.rd_ok s.log.length cpu) (acc.wr_ok (s.log.length + 1) cpu) (s.msr c m)
          else s.msr c m,
        log := s.log ++ exit_events (acc.rd_ok s.log.length cpu)
          (acc.wr_ok (s.log.length + 1) cpu) cpu (s.cfg cpu) } := by
  unfold itd_exit_body rdmsrl_on_cpu wrmsrl_on_cpu exit_reg exit_events rd_val Machine.cfg
  generalize int_to_u64 (int_not 0x1) = mask
  cases hrd : acc.rd_ok s.log.length cpu <;> cases hwr : acc.wr_ok (s.log.length + 1) cpu <;>
    simp [hrd, hwr]
  · by_cases h : s.msr cpu IA32_HW_FEEDBACK_THREAD_CONFIG % U64_MOD % 2 = 1 <;> simp [h]
  · by_cases h : s.msr cpu IA32_HW_FEEDBACK_THREAD_CONFIG % U64_MOD % 2 = 1
    · simp only [h, if_true, Machine.mk.injEq, and_true]
      funext c m
      by_cases hc : c = cpu ∧ m = IA32_HW_FEEDBACK_THREAD_CONFIG
      · obtain ⟨rfl, rfl⟩ := hc
        simp [h]
      · simp [hc]
    · simp only [h, if_false, Machine.mk.injEq, and_true]
      funext c m
      by_cases hc : c = cpu ∧ m = IA32_HW_FEEDBACK_THREAD_CONFIG
      · obtain ⟨rfl, rfl⟩ := hc
        simp [h]
      · simp [hc]

/-! ### The closed forms under the outcomes that matter -/

theorem rd_val_ok {R : Nat} (hR : R < U64_MOD) : rd_val true R = R := by
  simp [rd_val, Nat.mod_eq_of_lt hR]

theorem init_reg_ok {R : Nat} (hR : R < U64_MOD) : init_reg true true R = R ||| 1 := by
  unfold init_reg
  rw [rd_val_ok hR, Nat.and_one_is_mod]
  by_cases h : R % 2 = 0
  · simp [h, Nat.mod_eq_of_lt (or_one_lt hR)]
  · have h1 : R % 2 = 1 := by omega
    simp [h, or_one_of_odd h1]

theorem exit_reg_ok {R : Nat} (hR : R < U64_MOD) :
    exit_reg true true R = R &&& 0xFFFFFFFFFFFFFFFE := by
  unfold exit_reg
  rw [rd_val_ok hR, Nat.and_one_is_mod, not_one_as_u64]
  by_cases h : R % 2 = 1
  · simp [h, Nat.mod_eq_of_lt (and_mask_lt R)]
  · have h0 : R % 2 = 0 := by omega
    simp [h, and_mask_of_even hR h0]

theorem init_reg_wr_fail (rd : Bool) (R : Nat) : init_reg rd false R = R := by
  simp [init_reg]

theorem exit_reg_wr_fail (rd : Bool) (R : Nat) : exit_reg rd false R = R := by
  simp [exit_reg]

theorem exit_reg_rd_fail (wr : Bool) (R : Nat) : exit_reg false wr R = R := by
  simp [exit_reg, rd_val]

theorem init_reg_rd_fail (R : Nat) : init_reg false true R = 1 := by
  simp [init_reg, rd_val, U64_MOD]

/-! ## The loop -/

/-- If every iteration replaces (at most) the configuration register of its
own CPU by an idempotent function of its content, the whole loop applies that
function to exactly the enumerated CPUs. -/
theorem loop_msr (body : Nat → Machine → Machine) (g : Nat → Nat → Nat)
    (hidem : ∀ c R, g c (g c R) = g c R) (cpus : List Nat)
    (hstep : ∀ cpu ∈ cpus, ∀ s c m, (body cpu s).msr c m =
      if c = cpu ∧ m = IA32_HW_FEEDBACK_THREAD_CONFIG then g cpu (s.msr c m) else s.msr c m) :
    ∀ s c m, (for_each_possible_cpu body cpus s).msr c m =
      if c ∈ cpus ∧ m = IA32_HW_FEEDBACK_THREAD_CONFIG then g c (s.msr c m) else s.msr c m := by
  induction cpus with
  | nil => intro s c m; simp [for_each_possible_cpu]
  | cons a rest ih =>
    intro s c m
    have ih1 := ih (fun cpu hcpu => hstep cpu (List.mem_cons_of_mem a hcpu)) (body a s) c m
    have h1 := hstep a (List.mem_cons_self a rest) s c m
    simp only [for_each_possible_cpu]
    rw [ih1, h1]
    by_cases hm : m = IA32_HW_FEEDBACK_THREAD_CONFIG
    · by_cases hca : c = a
      · subst hca
        by_cases hr : c ∈ rest <;> simp [hm, hr, hidem]
      · by_cases hr : c ∈ rest <;> simp [hm, hr, hca]
    · simp [hm]

theorem init_reg_idem (rd wr : Bool) (R : Nat) :
    init_reg rd wr (init_reg rd wr R) = init_reg rd wr R := by
  cases wr with
  | false => simp [init_reg_wr_fail]
  | true =>
    cases rd with
    | false => simp [init_reg_rd_fail]
    | true =>
      unfold init_reg rd_val
      simp only [if_true, Nat.and_one_is_mod, and_true, Nat.mod_mod]
      by_cases h : R % U64_MOD % 2 = 0
      · have hlt : R % U64_MOD < U64_MOD := Nat.mod_lt _ (by decide)
        simp [h, Nat.mod_eq_of_lt (or_one_lt hlt), or_one_mod_two]
      · simp [h]

theorem exit_reg_idem (rd wr : Bool) (R : Nat) :
    exit_reg rd wr (exit_reg rd wr R) = exit_reg rd wr R := by
  cases wr with
  | false => simp [exit_reg_wr_fail]
  | true =>
    cases rd with
    | false => simp [exit_reg_rd_fail]
    | true =>
      unfold exit_reg rd_val
      rw [not_one_as_u64]
      simp only [if_true, Nat.and_one_is_mod, and_true, Nat.mod_mod]
      by_cases h : R % U64_MOD % 2 = 1
      · simp [h, Nat.mod_eq_of_lt (and_mask_lt _), and_mask_mod_two]
      · simp [h]

/-- The registers after `itd_init` when the outcome of the accesses to every
enumerated CPU is fixed per CPU. -/
theorem itd_init_msr (acc : Accessor) (cpus : List Nat) (rf wf : Nat → Bool)
    (hacc : ∀ t, ∀ c ∈ cpus, acc.rd_ok t c = rf c ∧ acc.wr_ok t c = wf c)
    (s : Machine) (c m : Nat) :
    (itd_init acc cpus s).2.msr c m =
      if c ∈ cpus ∧ m = IA32_HW_FEEDBACK_THREAD_CONFIG then init_reg (rf c) (wf c) (s.msr c m)
      else s.msr c m := by
  unfold itd_init
  apply loop_msr (itd_init_body acc) (fun c => init_reg (rf c) (wf c))
    (fun c R => init_reg_idem (rf c) (wf c) R)
  intro cpu hcpu s c m
  rw [itd_init_body_eq, (hacc _ cpu hcpu).1, (hacc _ cpu hcpu).2]

/-- The registers after `itd_exit` when the outcome of the accesses to every
enumerated CPU is fixed per CPU. -/
theorem itd_exit_msr (acc : Accessor) (cpus : List Nat) (rf wf : Nat → Bool)
    (hacc : ∀ t, ∀ c ∈ cpus, acc.rd_ok t c = rf c ∧ acc.wr_ok t c = wf c)
    (s : Machine) (c m : Nat) :
    (itd_exit acc cpus s).msr c m =
      if c ∈ cpus ∧ m = IA32_HW_FEEDBACK_THREAD_CONFIG then exit_reg (rf c) (wf c) (s.msr c m)
      else s.msr c m := by
  unfold itd_exit
  apply loop_msr (itd_exit_body acc) (fun c => exit_reg (rf c) (wf c))
    (fun c R => exit_reg_idem (rf c) (wf c) R)
  intro cpu hcpu s c m
  rw [itd_exit_body_eq, (hacc _ cpu hcpu).1, (hacc _ cpu hcpu).2]

/-! ## One toggle step -/

/-- The configuration register of the addressed CPU after a toggle step whose
read and write succeed. -/
theorem toggle_step_cfg (acc : Accessor) (v : Bool) (cpu : Nat) (s : Machine)
    (hR : s.cfg cpu < U64_MOD)
    (hrd : acc.rd_ok s.log.length cpu = true)
    (hwr : acc.wr_ok (s.log.length + 1) cpu = true) :
    (toggle_step acc v cpu s).cfg cpu =
      (if v then s.cfg cpu ||| 1 else s.cfg cpu &&& 0xFFFFFFFFFFFFFFFE) := by
  cases v with
  | true =>
    simp only [toggle_step, if_true, Machine.cfg]
    rw [itd_init_body_eq, hrd, hwr]
    simp only [and_self, if_true]
    exact init_reg_ok hR
  | false =>
    simp only [toggle_step, Machine.cfg, Bool.false_eq_true, if_false]
    rw [itd_exit_body_eq, hrd, hwr]
    simp only [and_self, if_true]
    exact exit_reg_ok hR

theorem toggle_step_cfg_lt (acc : Accessor) (v : Bool) (cpu : Nat) (s : Machine)
    (hR : s.cfg cpu < U64_MOD)
    (hrd : acc.rd_ok s.log.length cpu = true)
    (hwr : acc.wr_ok (s.log.length + 1) cpu = true) :
    (toggle_step acc v cpu s).cfg cpu < U64_MOD := by
  rw [toggle_step_cfg acc v cpu s hR hrd hwr]
  cases v with
  | true => exact or_one_lt hR
  | false => exact and_mask_lt _

theorem toggle_step_bit0 (acc : Accessor) (v : Bool) (cpu : Nat) (s : Machine)
    (hR : s.cfg cpu < U64_MOD)
    (hrd : acc.rd_ok s.log.length cpu = true)
    (hwr : acc.wr_ok (s.log.length + 1) cpu = true) :
    ((toggle_step acc v cpu s).cfg cpu).testBit 0 = v := by
  rw [toggle_step_cfg acc v cpu s hR hrd hwr]
  cases v with
  | true => exact or_one_testBit_zero _
  | false => exact and_mask_testBit_zero _

theorem toggle_step_high (acc : Accessor) (v : Bool) (cpu : Nat) (s : Machine)
    (hR : s.cfg cpu < U64_MOD)
    (hrd : acc.rd_ok s.log.length cpu = true)
    (hwr : acc.wr_ok (s.log.length + 1) cpu = true) (i : Nat) (hi : 1 ≤ i) :
    ((toggle_step acc v cpu s).cfg cpu).testBit i = (s.cfg cpu).testBit i := by
  rw [toggle_step_cfg acc v cpu s hR hrd hwr]
  cases v with
  | true => exact or_one_testBit_succ _ i hi
  | false => exact and_mask_testBit_succ hR i hi

/-- The write accesses a toggle step adds to the log when its read succeeds:
one write if bit 0 of the register differs from the desired value, none
otherwise. -/
theorem toggle_step_wr_log (acc : Accessor) (v : Bool) (cpu : Nat) (s : Machine)
    (hR : s.cfg cpu < U64_MOD)
    (hrd : acc.rd_ok s.log.length cpu = true) :
    wr_log (toggle_step acc v cpu s).log =
      wr_log s.log ++
        (if (s.cfg cpu).testBit 0 = v then []
         else [Access.wr cpu IA32_HW_FEEDBACK_THREAD_CONFIG
            (if v then s.cfg cpu ||| 1 else s.cfg cpu &&& 0xFFFFFFFFFFFFFFFE)
            (acc.wr_ok (s.log.length + 1) cpu)]) := by
  have hm : s.cfg cpu % U64_MOD = s.cfg cpu := Nat.mod_eq_of_lt hR
  cases v with
  | true =>
    simp only [toggle_step, if_true]
    rw [itd_init_body_eq, hrd]
    simp only [wr_log, List.filter_append, init_events, rd_val, if_true, hm,
      Nat.and_one_is_mod, Nat.testBit_zero, Nat.mod_eq_of_lt (or_one_lt hR)]
    by_cases h : s.cfg cpu % 2 = 0
    · simp [h, List.filter, Access.is_wr]
    · have h1 : s.cfg cpu % 2 = 1 := by omega
      simp [h1, List.filter, Access.is_wr]
  | false =>
    simp only [toggle_step, Bool.false_eq_true, if_false]
    rw [itd_exit_body_eq, hrd]
    simp only [wr_log, List.filter_append, exit_events, rd_val, if_true, hm,
      Nat.and_one_is_mod, Nat.testBit_zero, not_one_as_u64, Nat.mod_eq_of_lt (and_mask_lt _)]
    by_cases h : s.cfg cpu % 2 = 1
    · simp [h, List.filter, Access.is_wr]
    · simp [h, List.filter, Access.is_wr]

theorem toggle_step_log_length (acc : Accessor) (v : Bool) (cpu : Nat) (s : Machine) :
    s.log.length + 1 ≤ (toggle_step acc v cpu s).log.length := by
  cases v with
  | true =>
    simp only [toggle_step, if_true]
    rw [itd_init_body_eq]
    simp [init_events]
  | false =>
    simp only [toggle_step, Bool.false_eq_true, if_false]
    rw [itd_exit_body_eq]
    simp [exit_events]

/-! ## Whole runs with every access succeeding -/

theorem itd_init_cfg_ok (acc : Accessor) (cpus : List Nat) (s : Machine)
    (hok : ∀ t, ∀ c ∈ cpus, acc.rd_ok t c = true ∧ acc.wr_ok t c = true)
    (h64 : u64_on cpus s) (p : Nat) (hp : p ∈ cpus) :
    (itd_init acc cpus s).2.cfg p = s.cfg p ||| 1 := by
  unfold Machine.cfg
  rw [itd_init_msr acc cpus (fun _ => true) (fun _ => true) hok]
  simp only [hp, and_self, if_true]
  exact init_reg_ok (h64 p hp)

theorem itd_exit_cfg_ok (acc : Accessor) (cpus : List Nat) (s : Machine)
    (hok : ∀ t, ∀ c ∈ cpus, acc.rd_ok t c = true ∧ acc.wr_ok t c = true)
    (h64 : u64_on cpus s) (p : Nat) (hp : p ∈ cpus) :
    (itd_exit acc cpus s).cfg p = s.cfg p &&& 0xFFFFFFFFFFFFFFFE := by
  unfold Machine.cfg
  rw [itd_exit_msr acc cpus (fun _ => true) (fun _ => true) hok]
  simp only [hp, and_self, if_true]
  exact exit_reg_ok (h64 p hp)

/-- Registers outside the enumerated set, and registers other than the
configuration register, are not touched by `itd_init`. -/
theorem itd_init_msr_frame (acc : Accessor) (cpus : List Nat) (s : Machine) (c m : Nat)
    (h : c ∉ cpus ∨ m ≠ IA32_HW_FEEDBACK_THREAD_CONFIG) :
    (itd_init acc cpus s).2.msr c m = s.msr c m := by
  unfold itd_init
  simp only
  induction cpus generalizing s with
  | nil => rfl
  | cons a rest ih =>
    simp only [for_each_possible_cpu]
    have h2 : c ∉ rest ∨ m ≠ IA32_HW_FEEDBACK_THREAD_CONFIG := by
      rcases h with h | h
      · exact Or.inl (fun hc => h (List.mem_cons_of_mem a hc))
      · exact Or.inr h
    rw [ih (itd_init_body acc a s) h2, itd_init_body_eq]
    have h3 : ¬ (c = a ∧ m = IA32_HW_FEEDBACK_THREAD_CONFIG) := by
      rintro ⟨rfl, rfl⟩
      rcases h with h | h
      · exact h (List.mem_cons_self _ _)
      · exact h rfl
    simp [h3]

/-- Registers outside the enumerated set, and registers other than the
configuration register, are not touched by `itd_exit`. -/
theorem itd_exit_msr_frame (acc : Accessor) (cpus : List Nat) (s : Machine) (c m : Nat)
    (h : c ∉ cpus ∨ m ≠ IA32_HW_FEEDBACK_THREAD_CONFIG) :
    (itd_exit acc cpus s).msr c m = s.msr c m := by
  unfold itd_exit
  induction cpus generalizing s with
  | nil => rfl
  | cons a rest ih =>
    simp only [for_each_possible_cpu]
    have h2 : c ∉ rest ∨ m ≠ IA32_HW_FEEDBACK_THREAD_CONFIG := by
      rcases h with h | h
      · exact Or.inl (fun hc => h (List.mem_cons_of_mem a hc))
      · exact Or.inr h
    rw [ih (itd_exit_body acc a s) h2, itd_exit_body_eq]
    have h3 : ¬ (c = a ∧ m = IA32_HW_FEEDBACK_THREAD_CONFIG) := by
      rintro ⟨rfl, rfl⟩
      rcases h with h | h
      · exact h (List.mem_cons_self _ _)
      · exact h rfl
    simp [h3]

theorem itd_init_u64_on (acc : Accessor) (cpus : List Nat) (s : Machine)
    (hok : ∀ t, ∀ c ∈ cpus, acc.rd_ok t c = true ∧ acc.wr_ok t c = true)
    (h64 : u64_on cpus s) : u64_on cpus (itd_init acc cpus s).2 := by
  intro p hp
  rw [itd_init_cfg_ok acc cpus s hok h64 p hp]
  exact or_one_lt (h64 p hp)

/-- The value a read delivers into a destination initialised to `0`. -/
theorem rdmsrl_on_cpu_val (acc : Accessor) (cpu msr_no : Nat) (s : Machine) :
    (rdmsrl_on_cpu acc cpu msr_no 0 s).2.1 = rd_val (acc.rd_ok s.log.length cpu) (s.msr cpu msr_no) := by
  unfold rdmsrl_on_cpu rd_val
  cases acc.rd_ok s.log.length cpu <;> simp

/-- Whatever the moment of the read, i.e. whatever has been logged before. -/
theorem rd_val_of_rdmsrl (acc : Accessor) (cpu : Nat) (s : Machine)
    (h : ∀ s1 : Machine, s1.msr = s.msr →
      ((rdmsrl_on_cpu acc cpu IA32_HW_FEEDBACK_THREAD_CONFIG 0 s1).2.1).testBit 0 = false)
    (t : Nat) : (rd_val (acc.rd_ok t cpu) (s.cfg cpu)).testBit 0 = false := by
  have h1 := h { msr := s.msr, log := List.replicate t (Access.rd 0 0 true) } rfl
  rw [rdmsrl_on_cpu_val] at h1
  simpa [Machine.cfg] using h1

/-- An iteration of the `itd_exit` loop whose read delivers a value with bit 0
clear issues the read and nothing else. -/
theorem itd_exit_body_no_write (acc : Accessor) (cpu : Nat) (s : Machine)
    (h : (rd_val (acc.rd_ok s.log.length cpu) (s.cfg cpu)).testBit 0 = false) :
    itd_exit_body acc cpu s =
      { msr := s.msr,
        log := s.log ++ [Access.rd cpu IA32_HW_FEEDBACK_THREAD_CONFIG
          (acc.rd_ok s.log.length cpu)] } := by
  rw [Nat.testBit_zero] at h
  have h1 : ¬ (rd_val (acc.rd_ok s.log.length cpu) (s.cfg cpu) % 2 = 1) := of_decide_eq_false h
  rw [itd_exit_body_eq]
  simp only [exit_events, Nat.and_one_is_mod, h1, if_false, Machine.mk.injEq, and_true]
  funext c m
  by_cases hc : c = cpu ∧ m = IA32_HW_FEEDBACK_THREAD_CONFIG
  · obtain ⟨rfl, rfl⟩ := hc
    simp only [and_self, if_true, exit_reg, Nat.and_one_is_mod]
    rw [if_neg]
    rintro ⟨h2, _⟩
    exact h1 h2
  · simp [hc]

/-- A run of `itd_exit` in which every read delivers a value with bit 0 clear
issues no write and changes no register. -/
theorem itd_exit_no_write (acc : Accessor) (cpus : List Nat) (s : Machine)
    (hread : ∀ c ∈ cpus, ∀ t, (rd_val (acc.rd_ok t c) (s.cfg c)).testBit 0 = false) :
    wr_log (itd_exit acc cpus s).log = wr_log s.log ∧ (itd_exit acc cpus s).msr = s.msr := by
  unfold itd_exit
  induction cpus generalizing s with
  | nil => exact ⟨rfl, rfl⟩
  | cons a rest ih =>
    simp only [for_each_possible_cpu]
    rw [itd_exit_body_no_write acc a s (hread a (List.mem_cons_self a rest) _)]
    have h := ih { msr := s.msr, log := s.log ++ [Access.rd a IA32_HW_FEEDBACK_THREAD_CONFIG
      (acc.rd_ok s.log.length a)] } (fun c hc t => hread c (List.mem_cons_of_mem a hc) t)
    refine ⟨?_, h.2⟩
    rw [h.1]
    simp [wr_log, List.filter_append, Access.is_wr]

/-! ## The access log of a run over a duplicate-free enumeration -/

/-- If every iteration touches the configuration register of its own CPU only
and appends accesses that depend on that register only, then over a
duplicate-free enumeration the log grows by the accesses of each CPU computed
from the initial registers. -/
theorem loop_log (body : Nat → Machine → Machine) (g : Nat → Nat → Nat)
    (ev : Nat → Nat → List Access) (cpus : List Nat) (hnd : cpus.Nodup)
    (hmsr : ∀ cpu ∈ cpus, ∀ s c m, (body cpu s).msr c m =
      if c = cpu ∧ m = IA32_HW_FEEDBACK_THREAD_CONFIG then g cpu (s.msr c m) else s.msr c m)
    (hlog : ∀ cpu ∈ cpus, ∀ s, (body cpu s).log = s.log ++ ev cpu (s.cfg cpu)) :
    ∀ s, (for_each_possible_cpu body cpus s).log =
      s.log ++ cpus.flatMap (fun c => ev c (s.cfg c)) := by
  induction cpus with
  | nil => intro s; simp [for_each_possible_cpu]
  | cons a rest ih =>
    intro s
    have hnd' := List.nodup_cons.mp hnd
    simp only [for_each_possible_cpu, List.flatMap_cons]
    rw [ih hnd'.2 (fun cpu hcpu => hmsr cpu (List.mem_cons_of_mem a hcpu))
      (fun cpu hcpu => hlog cpu (List.mem_cons_of_mem a hcpu)) (body a s),
      hlog a (List.mem_cons_self a rest) s, List.append_assoc]
    congr 2
    apply List.flatMap_congr
    intro c hc
    have hca : c ≠ a := fun h => hnd'.1 (h ▸ hc)
    unfold Machine.cfg
    rw [hmsr a (List.mem_cons_self a rest) s c _]
    simp [hca]

theorem itd_init_log (acc : Accessor) (cpus : List Nat) (rf wf : Nat → Bool)
    (hacc : ∀ t, ∀ c ∈ cpus, acc.rd_ok t c = rf c ∧ acc.wr_ok t c = wf c)
    (hnd : cpus.Nodup) (s : Machine) :
    (itd_init acc cpus s).2.log =
      s.log ++ cpus.flatMap (fun c => init_events (rf c) (wf c) c (s.cfg c)) := by
  unfold itd_init
  apply loop_log (itd_init_body acc) (fun c => init_reg (rf c) (wf c))
    (fun c R => init_events (rf c) (wf c) c R) cpus hnd
  · intro cpu hcpu s c m
    rw [itd_init_body_eq, (hacc _ cpu hcpu).1, (hacc _ cpu hcpu).2]
  · intro cpu hcpu s
    rw [itd_init_body_eq, (hacc _ cpu hcpu).1, (hacc _ cpu hcpu).2]

theorem itd_exit_log (acc : Accessor) (cpus : List Nat) (rf wf : Nat → Bool)
    (hacc : ∀ t, ∀ c ∈ cpus, acc.rd_ok t c = rf c ∧ acc.wr_ok t c = wf c)
    (hnd : cpus.Nodup) (s : Machine) :
    (itd_exit acc cpus s).log =
      s.log ++ cpus.flatMap (fun c => exit_events (rf c) (wf c) c (s.cfg c)) := by
  unfold itd_exit
  apply loop_log (itd_exit_body acc) (fun c => exit_reg (rf c) (wf c))
    (fun c R => exit_events (rf c) (wf c) c R) cpus hnd
  · intro cpu hcpu s c m
    rw [itd_exit_body_eq, (hacc _ cpu hcpu).1, (hacc _ cpu hcpu).2]
  · intro cpu hcpu s
    rw [itd_exit_body_eq, (hacc _ cpu hcpu).1, (hacc _ cpu hcpu).2]

/-- The accesses one iteration issues address the CPU of that iteration, and
the register content of every other CPU is kept. -/
theorem toggle_step_frame (acc : Accessor) (v : Bool) (P : Nat) (s : Machine) (c m : Nat)
    (h : c ≠ P ∨ m ≠ IA32_HW_FEEDBACK_THREAD_CONFIG) :
    (toggle_step acc v P s).msr c m = s.msr c m := by
  have h3 : ¬ (c = P ∧ m = IA32_HW_FEEDBACK_THREAD_CONFIG) := by
    rintro ⟨rfl, rfl⟩
    rcases h with h | h
    · exact h rfl
    · exact h rfl
  cases v with
  | true =>
    simp only [toggle_step, if_true]
    rw [itd_init_body_eq]
    simp [h3]
  | false =>
    simp only [toggle_step, Bool.false_eq_true, if_false]
    rw [itd_exit_body_eq]
    simp [h3]

/-! ## The claims -/

/-- C1 (bit isolation of the per-CPU toggle).  For every 64-bit register value
and every desired bit `v`, when the read and the write on the processor both
succeed, the register after the toggle step is the old value with bit 0
replaced by `v`: `R ||| 1` for `v = 1`, `R &&& 0xFFFFFFFFFFFFFFFE` for `v = 0`
(the `int` constant `~0x1` is promoted to that 64-bit mask); bit 0 equals `v`
and every bit `i ≥ 1`, bits 32..63 included, is the bit of the old value. -/
theorem C1_toggle_bit_isolation (acc : Accessor) (v : Bool) (cpu : Nat) (s : Machine)
    (hR : s.cfg cpu < U64_MOD)
    (hrd : acc.rd_ok s.log.length cpu = true)
    (hwr : acc.wr_ok (s.log.length + 1) cpu = true) :
    int_to_u64 (int_not 0x1) = 0xFFFFFFFFFFFFFFFE ∧
    (toggle_step acc v cpu s).cfg cpu =
      (if v then s.cfg cpu ||| 1 else s.cfg cpu &&& 0xFFFFFFFFFFFFFFFE) ∧
    ((toggle_step acc v cpu s).cfg cpu).testBit 0 = v ∧
    ∀ i, 1 ≤ i → ((toggle_step acc v cpu s).cfg cpu).testBit i = (s.cfg cpu).testBit i := by
  exact ⟨not_one_as_u64, toggle_step_cfg acc v cpu s hR hrd hwr,
    toggle_step_bit0 acc v cpu s hR hrd hwr, toggle_step_high acc v cpu s hR hrd hwr⟩

/-- Witness for C1: CPU 0 holding `0x2`, all accesses succeeding, `v = 1`. -/
theorem C1_toggle_bit_isolation_witness :
    (machine_of [0x2]).cfg 0 < U64_MOD ∧
    (toggle_step all_ok true 0 (machine_of [0x2])).cfg 0 = 0x3 ∧
    ((toggle_step all_ok true 0 (machine_of [0x2])).cfg 0).testBit 1 = true :=
  ⟨by decide,
   (C1_toggle_bit_isolation all_ok true 0 (machine_of [0x2]) (by decide) rfl rfl).2.1,
   by decide⟩

/-- C2 (whole-set result of Activation and Deactivation).  If every register
access succeeds, then after `itd_init` every enumerated processor holds its
initial 64-bit value with bit 0 set, and after `itd_exit`, run from any state,
every enumerated processor holds its prior value with bit 0 cleared (the
enumeration need not even be duplicate-free).  On registers `0x0000, 0x0002,
0x0001` Activation gives `0x0001, 0x0003, 0x0001` and the subsequent
Deactivation `0x0000, 0x0002, 0x0000`. -/
theorem C2_whole_set_result (acc : Accessor) (cpus : List Nat) (s : Machine)
    (hok : ∀ t, ∀ c ∈ cpus, acc.rd_ok t c = true ∧ acc.wr_ok t c = true)
    (h64 : u64_on cpus s) :
    (∀ p ∈ cpus, (itd_init acc cpus s).2.cfg p = s.cfg p ||| 1 ∧
      ((itd_init acc cpus s).2.cfg p).testBit 0 = true) ∧
    (∀ p ∈ cpus, (itd_exit acc cpus s).cfg p = s.cfg p &&& 0xFFFFFFFFFFFFFFFE ∧
      ((itd_exit acc cpus s).cfg p).testBit 0 = false) ∧
    [0, 1, 2].map (itd_init all_ok [0, 1, 2] (machine_of [0x0000, 0x0002, 0x0001])).2.cfg
      = [0x0001, 0x0003, 0x0001] ∧
    [0, 1, 2].map (itd_exit all_ok [0, 1, 2]
        (itd_init all_ok [0, 1, 2] (machine_of [0x0000, 0x0002, 0x0001])).2).cfg
      = [0x0000, 0x0002, 0x0000] := by
  refine ⟨?_, ?_, by decide, by decide⟩
  · intro p hp
    rw [itd_init_cfg_ok acc cpus s hok h64 p hp]
    exact ⟨rfl, or_one_testBit_zero _⟩
  · intro p hp
    rw [itd_exit_cfg_ok acc cpus s hok h64 p hp]
    exact ⟨rfl, and_mask_testBit_zero _⟩

/-- Witness for C2: the three processors of the scenario, all accesses
succeeding. -/
theorem C2_whole_set_result_witness :
    u64_on [0, 1, 2] (machine_of [0x0000, 0x0002, 0x0001]) ∧
    (itd_init all_ok [0, 1, 2] (machine_of [0x0000, 0x0002, 0x0001])).2.cfg 1 = 0x0003 ∧
    (itd_exit all_ok [0, 1, 2] (machine_of [0x0000, 0x0002, 0x0001])).cfg 2 = 0x0000 :=
  ⟨by decide,
   ((C2_whole_set_result all_ok [0, 1, 2] (machine_of [0x0000, 0x0002, 0x0001])
      (fun _ _ _ => ⟨rfl, rfl⟩) (by decide)).1 1 (by decide)).1,
   ((C2_whole_set_result all_ok [0, 1, 2] (machine_of [0x0000, 0x0002, 0x0001])
      (fun _ _ _ => ⟨rfl, rfl⟩) (by decide)).2.1 2 (by decide)).1⟩

/-- C3, counterexample.  One processor whose register holds `0x0001`, every
access succeeding: Activation leaves `0x0001` (no write), the following
Deactivation writes `0x0000`, so bit 0 is not restored to the value `1` it had
before Activation. -/
theorem C3_round_trip_counterexample :
    u64_on [0] (machine_of [0x0001]) ∧
    ((machine_of [0x0001]).cfg 0).testBit 0 = true ∧
    (itd_init all_ok [0] (machine_of [0x0001])).2.cfg 0 = 0x0001 ∧
    (itd_exit all_ok [0] (itd_init all_ok [0] (machine_of [0x0001])).2).cfg 0 = 0x0000 ∧
    ((itd_exit all_ok [0] (itd_init all_ok [0] (machine_of [0x0001])).2).cfg 0).testBit 0
      ≠ ((machine_of [0x0001]).cfg 0).testBit 0 := by
  decide

/-- C3 as amended (round trip).  Activation followed by Deactivation, every
access succeeding, leaves bit 0 of every enumerated processor cleared, which
is its pre-Activation value exactly on the processors whose bit 0 was 0 before
Activation (and on processors that are not enumerated nothing changes);
bits 1..63 of every register are unchanged after Activation and after
Deactivation. -/
theorem C3_round_trip (acc : Accessor) (cpus : List Nat) (s : Machine)
    (hok : ∀ t, ∀ c ∈ cpus, acc.rd_ok t c = true ∧ acc.wr_ok t c = true)
    (h64 : u64_on cpus s) :
    (∀ p ∈ cpus, ((itd_exit acc cpus (itd_init acc cpus s).2).cfg p).testBit 0 = false) ∧
    (∀ p, p ∉ cpus ∨ (s.cfg p).testBit 0 = false →
      ((itd_exit acc cpus (itd_init acc cpus s).2).cfg p).testBit 0 = (s.cfg p).testBit 0) ∧
    (∀ p i, 1 ≤ i →
      ((itd_init acc cpus s).2.cfg p).testBit i = (s.cfg p).testBit i ∧
      ((itd_exit acc cpus (itd_init acc cpus s).2).cfg p).testBit i = (s.cfg p).testBit i) := by
  have h64' := itd_init_u64_on acc cpus s hok h64
  have hin : ∀ p ∈ cpus, (itd_exit acc cpus (itd_init acc cpus s).2).cfg p =
      (s.cfg p ||| 1) &&& 0xFFFFFFFFFFFFFFFE := by
    intro p hp
    rw [itd_exit_cfg_ok acc cpus _ hok h64' p hp, itd_init_cfg_ok acc cpus s hok h64 p hp]
  have hout : ∀ p, p ∉ cpus → (itd_exit acc cpus (itd_init acc cpus s).2).cfg p = s.cfg p ∧
      (itd_init acc cpus s).2.cfg p = s.cfg p := by
    intro p hp
    unfold Machine.cfg
    rw [itd_exit_msr_frame acc cpus _ p _ (Or.inl hp), itd_init_msr_frame acc cpus s p _ (Or.inl hp)]
    exact ⟨rfl, rfl⟩
  have hzero : ∀ p ∈ cpus,
      ((itd_exit acc cpus (itd_init acc cpus s).2).cfg p).testBit 0 = false := by
    intro p hp
    rw [hin p hp]
    exact and_mask_testBit_zero _
  refine ⟨hzero, ?_, ?_⟩
  · intro p hp
    by_cases hmem : p ∈ cpus
    · rcases hp with hp | hp
      · exact absurd hmem hp
      · rw [hzero p hmem, hp]
    · rw [(hout p hmem).1]
  · intro p i hi
    by_cases hmem : p ∈ cpus
    · rw [hin p hmem, itd_init_cfg_ok acc cpus s hok h64 p hmem,
        and_mask_testBit_succ (or_one_lt (h64 p hmem)) i hi]
      exact ⟨or_one_testBit_succ _ i hi, or_one_testBit_succ _ i hi⟩
    · rw [(hout p hmem).1, (hout p hmem).2]
      exact ⟨rfl, rfl⟩

/-- Witness for C3: processors holding `0x0002` and `0x0001`, every access
succeeding. -/
theorem C3_round_trip_witness :
    u64_on [0, 1] (machine_of [0x0002, 0x0001]) ∧
    ((itd_exit all_ok [0, 1] (itd_init all_ok [0, 1] (machine_of [0x0002, 0x0001])).2).cfg
      1).testBit 0 = false ∧
    (itd_exit all_ok [0, 1] (itd_init all_ok [0, 1] (machine_of [0x0002, 0x0001])).2).cfg 0
      = 0x0002 :=
  ⟨by decide,
   (C3_round_trip all_ok [0, 1] (machine_of [0x0002, 0x0001])
      (fun _ _ _ => ⟨rfl, rfl⟩) (by decide)).1 1 (by decide),
   by decide⟩

/-- C4 (idempotence of the per-CPU toggle).  Performing the toggle step for
the same processor and desired bit twice in a row, all accesses succeeding,
issues at most one register write in total: none on the second call, and none
at all when bit 0 of the register already equals the desired bit.  Bit 0 of
the register equals the desired bit after each call, and no bit `i ≥ 1`
is changed by either call. -/
theorem C4_toggle_idempotent (acc : Accessor) (v : Bool) (cpu : Nat) (s : Machine)
    (hR : s.cfg cpu < U64_MOD)
    (hok : ∀ t, acc.rd_ok t cpu = true ∧ acc.wr_ok t cpu = true) :
    (wr_log (toggle_step acc v cpu (toggle_step acc v cpu s)).log).length
      ≤ (wr_log s.log).length + 1 ∧
    wr_log (toggle_step acc v cpu (toggle_step acc v cpu s)).log
      = wr_log (toggle_step acc v cpu s).log ∧
    ((s.cfg cpu).testBit 0 = v →
      wr_log (toggle_step acc v cpu (toggle_step acc v cpu s)).log = wr_log s.log) ∧
    ((toggle_step acc v cpu s).cfg cpu).testBit 0 = v ∧
    ((toggle_step acc v cpu (toggle_step acc v cpu s)).cfg cpu).testBit 0 = v ∧
    (∀ i, 1 ≤ i →
      ((toggle_step acc v cpu s).cfg cpu).testBit i = (s.cfg cpu).testBit i ∧
      ((toggle_step acc v cpu (toggle_step acc v cpu s)).cfg cpu).testBit i
        = ((toggle_step acc v cpu s).cfg cpu).testBit i) := by
  have hR1 := toggle_step_cfg_lt acc v cpu s hR (hok _).1 (hok _).2
  have hb1 := toggle_step_bit0 acc v cpu s hR (hok _).1 (hok _).2
  have hb2 := toggle_step_bit0 acc v cpu (toggle_step acc v cpu s) hR1 (hok _).1 (hok _).2
  have hw1 := toggle_step_wr_log acc v cpu s hR (hok _).1
  have hw2 := toggle_step_wr_log acc v cpu (toggle_step acc v cpu s) hR1 (hok _).1
  rw [if_pos hb1, List.append_nil] at hw2
  refine ⟨?_, hw2, ?_, hb1, hb2, ?_⟩
  · rw [hw2, hw1, List.length_append]
    by_cases h : (s.cfg cpu).testBit 0 = v
    · rw [if_pos h]; exact Nat.le_succ _
    · rw [if_neg h]; exact Nat.le_refl _
  · intro h
    rw [hw2, hw1, if_pos h, List.append_nil]
  · intro i hi
    exact ⟨toggle_step_high acc v cpu s hR (hok _).1 (hok _).2 i hi,
      toggle_step_high acc v cpu (toggle_step acc v cpu s) hR1 (hok _).1 (hok _).2 i hi⟩

/-- Witness for C4: CPU 0 holding `0x2`, desired bit 1; the two calls issue
exactly one write, of the value `0x3`. -/
theorem C4_toggle_idempotent_witness :
    (machine_of [0x2]).cfg 0 < U64_MOD ∧
    wr_log (toggle_step all_ok true 0 (toggle_step all_ok true 0 (machine_of [0x2]))).log
      = [Access.wr 0 IA32_HW_FEEDBACK_THREAD_CONFIG 0x3 true] ∧
    wr_log (toggle_step all_ok true 0 (toggle_step all_ok true 0 (machine_of [0x2]))).log
      = wr_log (toggle_step all_ok true 0 (machine_of [0x2])).log :=
  ⟨by decide, by decide,
   (C4_toggle_idempotent all_ok true 0 (machine_of [0x2]) (by decide)
      (fun _ => ⟨rfl, rfl⟩)).2.1⟩

/-- C5 (unrelated bits are never clobbered), evaluated where the code breaks
it.  One processor whose register holds `0x2`; the read fails, so `val` stays
`0`, and the write succeeds: `itd_init` issues the write of `0x1`, which does
not agree with the register on bit 1, and bit 1 of the register is lost. -/
theorem C5_init_clobbers_after_failed_read :
    u64_on [0] (machine_of [0x2]) ∧
    ((machine_of [0x2]).cfg 0).testBit 1 = true ∧
    (itd_init rd_fails_wr_ok [0] (machine_of [0x2])).2.log =
      [Access.rd 0 IA32_HW_FEEDBACK_THREAD_CONFIG false,
       Access.wr 0 IA32_HW_FEEDBACK_THREAD_CONFIG 0x1 true] ∧
    (itd_init rd_fails_wr_ok [0] (machine_of [0x2])).2.cfg 0 = 0x1 ∧
    ((itd_init rd_fails_wr_ok [0] (machine_of [0x2])).2.cfg 0).testBit 1 = false := by
  decide

/-- C6 (partial-failure resilience).  Let `F` be a set of processors on which
every read and every write fails, all other accesses succeeding.  `itd_init`
returns 0; every enumerated processor outside `F` ends with bit 0 = 1 and its
bits `i ≥ 1` unchanged; the registers of the processors in `F` are unchanged.
With three processors of which the second fails, the first and the third end
with bit 0 = 1 and the call returns 0. -/
theorem C6_partial_failure (acc : Accessor) (F : Nat → Bool) (cpus : List Nat) (s : Machine)
    (hacc : ∀ t, ∀ c ∈ cpus, acc.rd_ok t c = !F c ∧ acc.wr_ok t c = !F c)
    (h64 : u64_on cpus s) :
    (itd_init acc cpus s).1 = 0 ∧
    (∀ p ∈ cpus, F p = false →
      (itd_init acc cpus s).2.cfg p = s.cfg p ||| 1 ∧
      ((itd_init acc cpus s).2.cfg p).testBit 0 = true ∧
      ∀ i, 1 ≤ i → ((itd_init acc cpus s).2.cfg p).testBit i = (s.cfg p).testBit i) ∧
    (∀ p, F p = true → ∀ m, (itd_init acc cpus s).2.msr p m = s.msr p m) ∧
    ((itd_init (fail_on (fun c => c == 1)) [0, 1, 2] (machine_of [0x0, 0x4, 0x2])).1 = 0 ∧
     [0, 1, 2].map (itd_init (fail_on (fun c => c == 1)) [0, 1, 2]
        (machine_of [0x0, 0x4, 0x2])).2.cfg = [0x1, 0x4, 0x3]) := by
  have hmsr := itd_init_msr acc cpus (fun c => !F c) (fun c => !F c) hacc s
  refine ⟨rfl, ?_, ?_, by decide⟩
  · intro p hp hF
    have hcfg : (itd_init acc cpus s).2.cfg p = s.cfg p ||| 1 := by
      unfold Machine.cfg
      rw [hmsr]
      simp only [hp, and_self, if_true, hF, Bool.not_false]
      exact init_reg_ok (h64 p hp)
    rw [hcfg]
    exact ⟨rfl, or_one_testBit_zero _, fun i hi => or_one_testBit_succ _ i hi⟩
  · intro p hF m
    rw [hmsr]
    simp only [hF, Bool.not_true, init_reg_wr_fail, ite_self]

/-- Witness for C6: three processors, every access to the second one
failing. -/
theorem C6_partial_failure_witness :
    u64_on [0, 1, 2] (machine_of [0x0, 0x5, 0x2]) ∧
    (itd_init (fail_on (fun c => c == 1)) [0, 1, 2] (machine_of [0x0, 0x5, 0x2])).1 = 0 ∧
    ((itd_init (fail_on (fun c => c == 1)) [0, 1, 2]
      (machine_of [0x0, 0x5, 0x2])).2.cfg 2).testBit 0 = true ∧
    (itd_init (fail_on (fun c => c == 1)) [0, 1, 2] (machine_of [0x0, 0x5, 0x2])).2.cfg 1
      = 0x5 :=
  ⟨by decide,
   (C6_partial_failure (fail_on (fun c => c == 1)) (fun c => c == 1) [0, 1, 2]
      (machine_of [0x0, 0x5, 0x2]) (fun _ _ _ => ⟨rfl, rfl⟩) (by decide)).1,
   ((C6_partial_failure (fail_on (fun c => c == 1)) (fun c => c == 1) [0, 1, 2]
      (machine_of [0x0, 0x5, 0x2]) (fun _ _ _ => ⟨rfl, rfl⟩) (by decide)).2.1
        2 (by decide) rfl).2.1,
   by decide⟩

/-- C7 (re-entrancy of Deactivation).  When a call of `itd_exit` reads bit 0 = 0
on every enumerated processor, it issues no register write and leaves every
register unchanged; and that is what a second call reads whenever all accesses
of the first call succeeded, whatever succeeds or fails in the second. -/
theorem C7_exit_reentrant (acc1 acc2 : Accessor) (cpus : List Nat) (s0 : Machine) :
    (∀ s : Machine,
      (∀ c ∈ cpus, ∀ s1 : Machine, s1.msr = s.msr →
        ((rdmsrl_on_cpu acc2 c IA32_HW_FEEDBACK_THREAD_CONFIG 0 s1).2.1).testBit 0 = false) →
      wr_log (itd_exit acc2 cpus s).log = wr_log s.log ∧ (itd_exit acc2 cpus s).msr = s.msr) ∧
    ((∀ t, ∀ c ∈ cpus, acc1.rd_ok t c = true ∧ acc1.wr_ok t c = true) → u64_on cpus s0 →
      (∀ c ∈ cpus, ((itd_exit acc1 cpus s0).cfg c).testBit 0 = false) ∧
      (∀ c ∈ cpus, ∀ s1 : Machine, s1.msr = (itd_exit acc1 cpus s0).msr →
        ((rdmsrl_on_cpu acc2 c IA32_HW_FEEDBACK_THREAD_CONFIG 0 s1).2.1).testBit 0 = false) ∧
      wr_log (itd_exit acc2 cpus (itd_exit acc1 cpus s0)).log
        = wr_log (itd_exit acc1 cpus s0).log ∧
      (itd_exit acc2 cpus (itd_exit acc1 cpus s0)).msr = (itd_exit acc1 cpus s0).msr) := by
  refine ⟨fun s h => itd_exit_no_write acc2 cpus s
    (fun c hc t => rd_val_of_rdmsrl acc2 c s (h c hc) t), ?_⟩
  intro hok h64
  have hbit : ∀ c ∈ cpus, ((itd_exit acc1 cpus s0).cfg c).testBit 0 = false := by
    intro c hc
    rw [itd_exit_cfg_ok acc1 cpus s0 hok h64 c hc]
    exact and_mask_testBit_zero _
  have hread : ∀ c ∈ cpus, ∀ t,
      (rd_val (acc2.rd_ok t c) ((itd_exit acc1 cpus s0).cfg c)).testBit 0 = false := by
    intro c hc t
    rw [itd_exit_cfg_ok acc1 cpus s0 hok h64 c hc]
    cases acc2.rd_ok t c with
    | false => simp [rd_val]
    | true =>
      rw [rd_val_ok (and_mask_lt _)]
      exact and_mask_testBit_zero _
  refine ⟨hbit, ?_, itd_exit_no_write acc2 cpus _ hread⟩
  intro c hc s1 hs1
  rw [rdmsrl_on_cpu_val, hs1]
  exact hread c hc _

/-- Witness for C7: registers `0x1, 0x3`; the first call (all accesses
succeeding) writes `0x0, 0x2`, the second call issues no write. -/
theorem C7_exit_reentrant_witness :
    u64_on [0, 1] (machine_of [0x1, 0x3]) ∧
    wr_log (itd_exit all_ok [0, 1] (itd_exit all_ok [0, 1] (machine_of [0x1, 0x3]))).log
      = wr_log (itd_exit all_ok [0, 1] (machine_of [0x1, 0x3])).log ∧
    wr_log (itd_exit all_ok [0, 1] (machine_of [0x1, 0x3])).log
      = [Access.wr 0 IA32_HW_FEEDBACK_THREAD_CONFIG 0x0 true,
         Access.wr 1 IA32_HW_FEEDBACK_THREAD_CONFIG 0x2 true] :=
  ⟨by decide,
   ((C7_exit_reentrant all_ok all_ok [0, 1] (machine_of [0x1, 0x3])).2
      (fun _ _ _ => ⟨rfl, rfl⟩) (by decide)).2.2.1,
   by decide⟩

/-- C8, counterexample.  No two runs of `itd_init` report different results,
whatever the accessors, the processor set and the registers; in particular
the run in which every access fails and the run in which every access succeeds
report the same result on three processors. -/
theorem C8_failures_not_reported_counterexample :
    (¬ ∃ (acc1 acc2 : Accessor) (cpus : List Nat) (s : Machine),
      (itd_init acc1 cpus s).1 ≠ (itd_init acc2 cpus s).1) ∧
    (itd_init (fail_on (fun _ => true)) [0, 1, 2] (machine_of [0x0, 0x2, 0x1])).1
      = (itd_init all_ok [0, 1, 2] (machine_of [0x0, 0x2, 0x1])).1 ∧
    (itd_init (fail_on (fun _ => true)) [0, 1, 2] (machine_of [0x0, 0x2, 0x1])).2.log
      ≠ (itd_init all_ok [0, 1, 2] (machine_of [0x0, 0x2, 0x1])).2.log := by
  refine ⟨?_, rfl, by decide⟩
  rintro ⟨acc1, acc2, cpus, s, h⟩
  exact h rfl

/-- C8 as amended.  The outcome `itd_init` reports to its caller is 0 in every
run: the statuses of the register accesses are discarded, so a run with failed
accesses and a run without report the same result. -/
theorem C8_init_reports_zero (acc1 acc2 : Accessor) (cpus : List Nat) (s : Machine) :
    (itd_init acc1 cpus s).1 = 0 ∧ (itd_init acc1 cpus s).1 = (itd_init acc2 cpus s).1 :=
  ⟨rfl, rfl⟩

/-- C9 (per-processor frame).  One toggle step for processor `P`, whatever
succeeds or fails, leaves every register of every processor `Q ≠ P` as it was;
on `P` itself only the configuration register can change. -/
theorem C9_toggle_frame (acc : Accessor) (v : Bool) (P Q : Nat) (s : Machine) (hQ : Q ≠ P) :
    (∀ m, (toggle_step acc v P s).msr Q m = s.msr Q m) ∧
    (∀ c m, (toggle_step acc v P s).msr c m ≠ s.msr c m →
      c = P ∧ m = IA32_HW_FEEDBACK_THREAD_CONFIG) := by
  refine ⟨fun m => toggle_step_frame acc v P s Q m (Or.inl hQ), ?_⟩
  intro c m hne
  by_contra hcm
  apply hne
  apply toggle_step_frame
  by_cases hc : c = P
  · exact Or.inr (fun hm => hcm ⟨hc, hm⟩)
  · exact Or.inl hc

/-- Witness for C9: a step for processor 0 under the accessor whose reads fail
and whose writes succeed changes processor 0 and leaves processor 1 alone. -/
theorem C9_toggle_frame_witness :
    (1 : Nat) ≠ 0 ∧
    (toggle_step rd_fails_wr_ok true 0 (machine_of [0x2, 0x6])).cfg 1 = 0x6 ∧
    (toggle_step rd_fails_wr_ok true 0 (machine_of [0x2, 0x6])).cfg 0 = 0x1 :=
  ⟨by decide,
   (C9_toggle_frame rd_fails_wr_ok true 0 1 (machine_of [0x2, 0x6]) (by decide)).1
      IA32_HW_FEEDBACK_THREAD_CONFIG,
   by decide⟩

/-- C10 (order independence).  For a duplicate-free list of processors, a
permutation of it, and accesses whose outcome is fixed per processor, running
`itd_init` (respectively `itd_exit`) over the permuted enumeration yields the
same final registers on every processor and the same accesses up to order, in
particular the same multiset of writes, as over the original enumeration. -/
theorem C10_order_independent (acc : Accessor) (rf wf : Nat → Bool)
    (cpus cpus' : List Nat) (s : Machine)
    (hacc : ∀ t, ∀ c ∈ cpus, acc.rd_ok t c = rf c ∧ acc.wr_ok t c = wf c)
    (hnd : cpus.Nodup) (hperm : cpus'.Perm cpus) :
    ((itd_init acc cpus' s).2.msr = (itd_init acc cpus s).2.msr ∧
     ((itd_init acc cpus' s).2.log).Perm (itd_init acc cpus s).2.log ∧
     (wr_log (itd_init acc cpus' s).2.log).Perm (wr_log (itd_init acc cpus s).2.log)) ∧
    ((itd_exit acc cpus' s).msr = (itd_exit acc cpus s).msr ∧
     ((itd_exit acc cpus' s).log).Perm (itd_exit acc cpus s).log ∧
     (wr_log (itd_exit acc cpus' s).log).Perm (wr_log (itd_exit acc cpus s).log)) := by
  have hacc' : ∀ t, ∀ c ∈ cpus', acc.rd_ok t c = rf c ∧ acc.wr_ok t c = wf c :=
    fun t c hc => hacc t c (hperm.mem_iff.mp hc)
  have hnd' : cpus'.Nodup := hperm.nodup_iff.mpr hnd
  have hmem : ∀ c, c ∈ cpus' ↔ c ∈ cpus := fun c => hperm.mem_iff
  have hli : ((itd_init acc cpus' s).2.log).Perm (itd_init acc cpus s).2.log := by
    rw [itd_init_log acc cpus' rf wf hacc' hnd' s, itd_init_log acc cpus rf wf hacc hnd s]
    exact List.Perm.append_left _ (List.Perm.flatMap_right _ hperm)
  have hle : ((itd_exit acc cpus' s).log).Perm (itd_exit acc cpus s).log := by
    rw [itd_exit_log acc cpus' rf wf hacc' hnd' s, itd_exit_log acc cpus rf wf hacc hnd s]
    exact List.Perm.append_left _ (List.Perm.flatMap_right _ hperm)
  refine ⟨⟨?_, hli, List.Perm.filter _ hli⟩, ⟨?_, hle, List.Perm.filter _ hle⟩⟩
  · funext c m
    rw [itd_init_msr acc cpus' rf wf hacc' s, itd_init_msr acc cpus rf wf hacc s]
    simp only [hmem]
  · funext c m
    rw [itd_exit_msr acc cpus' rf wf hacc' s, itd_exit_msr acc cpus rf wf hacc s]
    simp only [hmem]

/-- Witness for C10: processors `0, 1, 2` visited in the order `2, 0, 1`, every
access to processor 1 failing. -/
theorem C10_order_independent_witness :
    [0, 1, 2].Nodup ∧ [2, 0, 1].Perm [0, 1, 2] ∧
    (wr_log (itd_init (fail_on (fun c => c == 1)) [2, 0, 1]
        (machine_of [0x0, 0x4, 0x2])).2.log).Perm
      (wr_log (itd_init (fail_on (fun c => c == 1)) [0, 1, 2]
        (machine_of [0x0, 0x4, 0x2])).2.log) ∧
    wr_log (itd_init (fail_on (fun c => c == 1)) [2, 0, 1] (machine_of [0x0, 0x4, 0x2])).2.log
      = [Access.wr 2 IA32_HW_FEEDBACK_THREAD_CONFIG 0x3 true,
         Access.wr 0 IA32_HW_FEEDBACK_THREAD_CONFIG 0x1 true,
         Access.wr 1 IA32_HW_FEEDBACK_THREAD_CONFIG 0x1 false] :=
  ⟨by decide, by decide,
   (C10_order_independent (fail_on (fun c => c == 1)) (fun c => !(c == 1))
      (fun c => !(c == 1)) [0, 1, 2] [2, 0, 1] (machine_of [0x0, 0x4, 0x2])
      (fun _ _ _ => ⟨rfl, rfl⟩) (by decide) (by decide)).1.2.2,
   by decide⟩

/-! ## The accesses of one call, processor by processor -/

theorem accesses_to_append (c : Nat) (l1 l2 : List Access) :
    accesses_to c (l1 ++ l2) = accesses_to c l1 ++ accesses_to c l2 := by
  simp [accesses_to, List.filter_append]

theorem accesses_to_own (c : Nat) (l : List Access) (h : ∀ a ∈ l, a.cpu_of = c) :
    accesses_to c l = l := by
  unfold accesses_to
  rw [List.filter_eq_self]
  intro a ha
  simp [h a ha]

theorem accesses_to_other (c : Nat) (l : List Access) (h : ∀ a ∈ l, a.cpu_of ≠ c) :
    accesses_to c l = [] := by
  unfold accesses_to
  rw [List.filter_eq_nil_iff]
  intro a ha
  simp [h a ha]

/-- If every iteration appends accesses to its own CPU only, and these satisfy
`Q`, then over a duplicate-free enumeration the accesses of the whole loop
address enumerated CPUs only, and those addressing any one enumerated CPU
satisfy `Q`. -/
theorem loop_visits (body : Nat → Machine → Machine) (Q : Nat → List Access → Prop)
    (cpus : List Nat) (hnd : cpus.Nodup)
    (hstep : ∀ cpu ∈ cpus, ∀ s, ∃ ev, (body cpu s).log = s.log ++ ev ∧
      (∀ a ∈ ev, a.cpu_of = cpu) ∧ Q cpu ev) :
    ∀ s, ∃ new, (for_each_possible_cpu body cpus s).log = s.log ++ new ∧
      (∀ a ∈ new, a.cpu_of ∈ cpus) ∧ ∀ c ∈ cpus, Q c (accesses_to c new) := by
  induction cpus with
  | nil => intro s; exact ⟨[], by simp [for_each_possible_cpu], by simp, by simp⟩
  | cons a rest ih =>
    intro s
    have hnd' := List.nodup_cons.mp hnd
    obtain ⟨ev, hev, hown, hQ⟩ := hstep a (List.mem_cons_self a rest) s
    obtain ⟨new, hnew, hmem, hQs⟩ := ih hnd'.2
      (fun cpu hcpu => hstep cpu (List.mem_cons_of_mem a hcpu)) (body a s)
    refine ⟨ev ++ new, ?_, ?_, ?_⟩
    · simp only [for_each_possible_cpu]
      rw [hnew, hev, List.append_assoc]
    · intro x hx
      rcases List.mem_append.mp hx with hx | hx
      · rw [hown x hx]; exact List.mem_cons_self a rest
      · exact List.mem_cons_of_mem a (hmem x hx)
    · intro c hc
      rw [accesses_to_append]
      rcases List.mem_cons.mp hc with hca | hcr
      · subst hca
        rw [accesses_to_own c ev hown, accesses_to_other c new, List.append_nil]
        · exact hQ
        · intro x hx hxc
          exact hnd'.1 (hxc ▸ hmem x hx)
      · have hca : a ≠ c := fun h => hnd'.1 (h ▸ hcr)
        rw [accesses_to_other c ev (fun x hx => by rw [hown x hx]; exact hca), List.nil_append]
        exact hQs c hcr

theorem init_events_own (rd wr : Bool) (cpu R : Nat) :
    ∀ a ∈ init_events rd wr cpu R, a.cpu_of = cpu := by
  intro a ha
  unfold init_events at ha
  split at ha <;> simp at ha <;> rcases ha with rfl | rfl <;> rfl

theorem exit_events_own (rd wr : Bool) (cpu R : Nat) :
    ∀ a ∈ exit_events rd wr cpu R, a.cpu_of = cpu := by
  intro a ha
  unfold exit_events at ha
  split at ha <;> simp at ha <;> rcases ha with rfl | rfl <;> rfl

theorem init_events_one_visit (rd wr : Bool) (cpu R : Nat) :
    one_visit cpu (init_events rd wr cpu R) = true := by
  unfold init_events
  split <;> simp [one_visit]

theorem exit_events_one_visit (rd wr : Bool) (cpu R : Nat) :
    one_visit cpu (exit_events rd wr cpu R) = true := by
  unfold exit_events
  split <;> simp [one_visit]

/-- A visit holds exactly one read and at most one write. -/
theorem one_visit_counts (c : Nat) (l : List Access) (h : one_visit c l = true) :
    (rd_log l).length = 1 ∧ (wr_log l).length ≤ 1 := by
  rcases l with _ | ⟨x, _ | ⟨y, _ | ⟨z, l⟩⟩⟩
  · simp [one_visit] at h
  · cases x <;> simp [one_visit] at h
    simp [rd_log, wr_log, Access.is_wr]
  · cases x <;> cases y <;> simp [one_visit] at h
    simp [rd_log, wr_log, Access.is_wr]
  · cases x <;> cases y <;> simp [one_visit] at h

/-- Within a visit nothing follows a write, and only the single write can
follow the read. -/
theorem one_visit_after (c : Nat) (l1 l2 : List Access) (a : Access)
    (h : one_visit c (l1 ++ a :: l2) = true) :
    (a.is_wr = true → l2 = []) ∧
    (a.is_wr = false → l2.length ≤ 1 ∧ ∀ b ∈ l2, b.is_wr = true) := by
  rcases l1 with _ | ⟨x, _ | ⟨y, l1⟩⟩
  · rcases l2 with _ | ⟨z, _ | ⟨w, l2⟩⟩
    · simp
    · cases a <;> cases z <;> simp [one_visit] at h
      simp [Access.is_wr]
    · cases a <;> cases z <;> simp [one_visit] at h
  · rcases l2 with _ | ⟨z, l2⟩
    · cases x <;> cases a <;> simp [one_visit] at h
      simp [Access.is_wr]
    · cases x <;> cases a <;> simp [one_visit] at h
  · cases x <;> cases y <;> simp [one_visit] at h

/-- What the shape of the visits says about a trace: per enumerated CPU one
read and at most one write, and after an access to a CPU nothing but the
single write that may follow the read. -/
theorem visits_once (cpus : List Nat) (tr : List Access)
    (hmem : ∀ a ∈ tr, a.cpu_of ∈ cpus)
    (hshape : ∀ c ∈ cpus, one_visit c (accesses_to c tr) = true) :
    (∀ c ∈ cpus, (rd_log (accesses_to c tr)).length = 1 ∧
      (wr_log (accesses_to c tr)).length ≤ 1) ∧
    (∀ pre a post, tr = pre ++ a :: post →
      (a.is_wr = true → accesses_to a.cpu_of post = []) ∧
      (a.is_wr = false → (accesses_to a.cpu_of post).length ≤ 1 ∧
        ∀ b ∈ accesses_to a.cpu_of post, b.is_wr = true)) := by
  refine ⟨fun c hc => one_visit_counts c _ (hshape c hc), ?_⟩
  intro pre a post htr
  have ha : a ∈ tr := by rw [htr]; simp
  have h := hshape a.cpu_of (hmem a ha)
  rw [htr, accesses_to_append] at h
  have hcons : accesses_to a.cpu_of (a :: post) = a :: accesses_to a.cpu_of post := by
    simp [accesses_to]
  rw [hcons] at h
  exact one_visit_after a.cpu_of _ _ a h

theorem itd_init_visits (acc : Accessor) (cpus : List Nat) (hnd : cpus.Nodup) (s : Machine) :
    (itd_init acc cpus s).2.log = s.log ++ accesses_since s (itd_init acc cpus s).2 ∧
    (∀ a ∈ accesses_since s (itd_init acc cpus s).2, a.cpu_of ∈ cpus) ∧
    ∀ c ∈ cpus, one_visit c (accesses_to c (accesses_since s (itd_init acc cpus s).2)) = true := by
  obtain ⟨new, hnew, hmem, hshape⟩ := loop_visits (itd_init_body acc)
    (fun c ev => one_visit c ev = true) cpus hnd
    (fun cpu _ s => ⟨_, by rw [itd_init_body_eq], init_events_own _ _ _ _,
      init_events_one_visit _ _ _ _⟩) s
  have hsince : accesses_since s (itd_init acc cpus s).2 = new := by
    unfold accesses_since itd_init
    simp only
    rw [hnew, List.drop_left]
  rw [hsince]
  exact ⟨hnew, hmem, hshape⟩

theorem itd_exit_visits (acc : Accessor) (cpus : List Nat) (hnd : cpus.Nodup) (s : Machine) :
    (itd_exit acc cpus s).log = s.log ++ accesses_since s (itd_exit acc cpus s) ∧
    (∀ a ∈ accesses_since s (itd_exit acc cpus s), a.cpu_of ∈ cpus) ∧
    ∀ c ∈ cpus, one_visit c (accesses_to c (accesses_since s (itd_exit acc cpus s))) = true := by
  obtain ⟨new, hnew, hmem, hshape⟩ := loop_visits (itd_exit_body acc)
    (fun c ev => one_visit c ev = true) cpus hnd
    (fun cpu _ s => ⟨_, by rw [itd_exit_body_eq], exit_events_own _ _ _ _,
      exit_events_one_visit _ _ _ _⟩) s
  have hsince : accesses_since s (itd_exit acc cpus s) = new := by
    unfold accesses_since itd_exit
    rw [hnew, List.drop_left]
  rw [hsince]
  exact ⟨hnew, hmem, hshape⟩

/-! ## A processor whose read fails -/

theorem init_events_rd_fail (wr : Bool) (cpu R : Nat) :
    init_events false wr cpu R =
      [Access.rd cpu IA32_HW_FEEDBACK_THREAD_CONFIG false,
       Access.wr cpu IA32_HW_FEEDBACK_THREAD_CONFIG 0x1 wr] := by
  simp [init_events, rd_val, U64_MOD]

theorem exit_events_rd_fail (wr : Bool) (cpu R : Nat) :
    exit_events false wr cpu R = [Access.rd cpu IA32_HW_FEEDBACK_THREAD_CONFIG false] := by
  simp [exit_events, rd_val]

/-- The accesses of a call of `itd_init` to a processor all of whose reads
fail. -/
theorem itd_init_visit_rd_fail (acc : Accessor) (cpus : List Nat) (p : Nat) (s : Machine)
    (hrd : ∀ t, acc.rd_ok t p = false) (hnd : cpus.Nodup) (hp : p ∈ cpus) :
    ∃ wr, accesses_to p (accesses_since s (itd_init acc cpus s).2) =
      [Access.rd p IA32_HW_FEEDBACK_THREAD_CONFIG false,
       Access.wr p IA32_HW_FEEDBACK_THREAD_CONFIG 0x1 wr] := by
  obtain ⟨new, hnew, _, hshape⟩ := loop_visits (itd_init_body acc)
    (fun c ev => c = p → ∃ wr, ev =
      [Access.rd p IA32_HW_FEEDBACK_THREAD_CONFIG false,
       Access.wr p IA32_HW_FEEDBACK_THREAD_CONFIG 0x1 wr]) cpus hnd
    (fun cpu _ s => ⟨_, by rw [itd_init_body_eq], init_events_own _ _ _ _, by
      intro hc
      subst hc
      rw [hrd, init_events_rd_fail]
      exact ⟨_, rfl⟩⟩) s
  have hsince : accesses_since s (itd_init acc cpus s).2 = new := by
    unfold accesses_since itd_init
    simp only
    rw [hnew, List.drop_left]
  rw [hsince]
  exact hshape p hp rfl

/-- The accesses of a call of `itd_exit` to a processor all of whose reads
fail. -/
theorem itd_exit_visit_rd_fail (acc : Accessor) (cpus : List Nat) (p : Nat) (s : Machine)
    (hrd : ∀ t, acc.rd_ok t p = false) (hnd : cpus.Nodup) (hp : p ∈ cpus) :
    accesses_to p (accesses_since s (itd_exit acc cpus s)) =
      [Access.rd p IA32_HW_FEEDBACK_THREAD_CONFIG false] := by
  obtain ⟨new, hnew, _, hshape⟩ := loop_visits (itd_exit_body acc)
    (fun c ev => c = p → ev = [Access.rd p IA32_HW_FEEDBACK_THREAD_CONFIG false]) cpus hnd
    (fun cpu _ s => ⟨_, by rw [itd_exit_body_eq], exit_events_own _ _ _ _, by
      intro hc
      subst hc
      rw [hrd, exit_events_rd_fail]⟩) s
  have hsince : accesses_since s (itd_exit acc cpus s) = new := by
    unfold accesses_since itd_exit
    rw [hnew, List.drop_left]
  rw [hsince]
  exact hshape p hp rfl

/-- A call of `itd_exit` changes no register of a processor all of whose reads
fail. -/
theorem itd_exit_msr_rd_fail (acc : Accessor) (cpus : List Nat) (p : Nat)
    (hrd : ∀ t, acc.rd_ok t p = false) (s : Machine) (m : Nat) :
    (itd_exit acc cpus s).msr p m = s.msr p m := by
  unfold itd_exit
  induction cpus generalizing s with
  | nil => rfl
  | cons a rest ih =>
    simp only [for_each_possible_cpu]
    rw [ih (itd_exit_body acc a s), itd_exit_body_eq]
    by_cases hc : p = a ∧ m = IA32_HW_FEEDBACK_THREAD_CONFIG
    · obtain ⟨rfl, rfl⟩ := hc
      simp only [and_self, if_true, hrd, exit_reg_rd_fail]
    · simp only [hc, if_false]

/-! ## Deactivation after Activation -/

/-- Clearing bit 0 forgets whether it had been set before. -/
theorem or_one_and_mask (R : Nat) :
    (R ||| 1) &&& 0xFFFFFFFFFFFFFFFE = R &&& 0xFFFFFFFFFFFFFFFE := by
  apply Nat.eq_of_testBit_eq
  intro i
  rw [Nat.testBit_land, Nat.testBit_land]
  cases i with
  | zero => rw [testBit_mask]; simp
  | succ j => rw [or_one_testBit_succ R (j + 1) (Nat.succ_le_succ (Nat.zero_le j))]

/-! ## The claims on the access trace -/

/-- C11 (exactly-once visiting without retries).  In one call of `itd_init` or
of `itd_exit` over a duplicate-free enumeration, under any pattern of failing
and succeeding accesses, the accesses of the call contain exactly one read and
at most one write for every enumerated processor (a read of the configuration
register followed by at most one write of it), address no processor outside
the enumeration, and an access to a processor, failed or not, is followed by
no further access to that processor except the single write that may follow
the read. -/
theorem C11_exactly_once_no_retry (acc : Accessor) (cpus : List Nat) (s : Machine)
    (hnd : cpus.Nodup) :
    ((itd_init acc cpus s).2.log = s.log ++ accesses_since s (itd_init acc cpus s).2 ∧
     (∀ c ∈ cpus,
        (rd_log (accesses_to c (accesses_since s (itd_init acc cpus s).2))).length = 1 ∧
        (wr_log (accesses_to c (accesses_since s (itd_init acc cpus s).2))).length ≤ 1 ∧
        one_visit c (accesses_to c (accesses_since s (itd_init acc cpus s).2)) = true) ∧
     (∀ a ∈ accesses_since s (itd_init acc cpus s).2, a.cpu_of ∈ cpus) ∧
     (∀ pre a post, accesses_since s (itd_init acc cpus s).2 = pre ++ a :: post →
        (a.is_wr = true → accesses_to a.cpu_of post = []) ∧
        (a.is_wr = false → (accesses_to a.cpu_of post).length ≤ 1 ∧
          ∀ b ∈ accesses_to a.cpu_of post, b.is_wr = true))) ∧
    ((itd_exit acc cpus s).log = s.log ++ accesses_since s (itd_exit acc cpus s) ∧
     (∀ c ∈ cpus,
        (rd_log (accesses_to c (accesses_since s (itd_exit acc cpus s)))).length = 1 ∧
        (wr_log (accesses_to c (accesses_since s (itd_exit acc cpus s)))).length ≤ 1 ∧
        one_visit c (accesses_to c (accesses_since s (itd_exit acc cpus s))) = true) ∧
     (∀ a ∈ accesses_since s (itd_exit acc cpus s), a.cpu_of ∈ cpus) ∧
     (∀ pre a post, accesses_since s (itd_exit acc cpus s) = pre ++ a :: post →
        (a.is_wr = true → accesses_to a.cpu_of post = []) ∧
        (a.is_wr = false → (accesses_to a.cpu_of post).length ≤ 1 ∧
          ∀ b ∈ accesses_to a.cpu_of post, b.is_wr = true))) := by
  obtain ⟨hi1, hi2, hi3⟩ := itd_init_visits acc cpus hnd s
  obtain ⟨he1, he2, he3⟩ := itd_exit_visits acc cpus hnd s
  have hi := visits_once cpus _ hi2 hi3
  have he := visits_once cpus _ he2 he3
  exact ⟨⟨hi1, fun c hc => ⟨(hi.1 c hc).1, (hi.1 c hc).2, hi3 c hc⟩, hi2, hi.2⟩,
    ⟨he1, fun c hc => ⟨(he.1 c hc).1, (he.1 c hc).2, he3 c hc⟩, he2, he.2⟩⟩

/-- Witness for C11: processors `0, 1, 2`, every access to processor 1 failing;
the call of `itd_init` issues a read and a write for each of them, and the
failed accesses to processor 1 are not repeated. -/
theorem C11_exactly_once_no_retry_witness :
    [0, 1, 2].Nodup ∧
    (rd_log (accesses_to 1 (accesses_since (machine_of [0x0, 0x4, 0x3])
      (itd_init (fail_on (fun c => c == 1)) [0, 1, 2]
        (machine_of [0x0, 0x4, 0x3])).2))).length = 1 ∧
    accesses_since (machine_of [0x0, 0x4, 0x3])
      (itd_init (fail_on (fun c => c == 1)) [0, 1, 2] (machine_of [0x0, 0x4, 0x3])).2
      = [Access.rd 0 IA32_HW_FEEDBACK_THREAD_CONFIG true,
         Access.wr 0 IA32_HW_FEEDBACK_THREAD_CONFIG 0x1 true,
         Access.rd 1 IA32_HW_FEEDBACK_THREAD_CONFIG false,
         Access.wr 1 IA32_HW_FEEDBACK_THREAD_CONFIG 0x1 false,
         Access.rd 2 IA32_HW_FEEDBACK_THREAD_CONFIG true] :=
  ⟨by decide,
   ((C11_exactly_once_no_retry (fail_on (fun c => c == 1)) [0, 1, 2]
      (machine_of [0x0, 0x4, 0x3]) (by decide)).1.2.1 1 (by decide)).1,
   by decide⟩

/-- C12 (a failed read is treated differently by the two entry points).  When
the read on a processor fails, the local `val` stays 0; the loop body of
`itd_init` then attempts a write of exactly `0x1` to that processor, while the
loop body of `itd_exit` attempts no write and leaves all registers as they
were.  Hence, in a whole call over a duplicate-free enumeration, the accesses
to a processor whose reads fail are the failed read and a write of `0x1` for
`itd_init`, the failed read alone for `itd_exit`, and `itd_exit` leaves every
register of that processor unchanged, whatever its bit 0 is. -/
theorem C12_failed_read_asymmetry (acc : Accessor) (cpus : List Nat) (p : Nat) (s : Machine) :
    (acc.rd_ok s.log.length p = false →
      (rdmsrl_on_cpu acc p IA32_HW_FEEDBACK_THREAD_CONFIG 0 s).2.1 = 0 ∧
      (itd_init_body acc p s).log = s.log ++
        [Access.rd p IA32_HW_FEEDBACK_THREAD_CONFIG false,
         Access.wr p IA32_HW_FEEDBACK_THREAD_CONFIG 0x1 (acc.wr_ok (s.log.length + 1) p)] ∧
      (itd_exit_body acc p s).log = s.log ++
        [Access.rd p IA32_HW_FEEDBACK_THREAD_CONFIG false] ∧
      (itd_exit_body acc p s).msr = s.msr) ∧
    ((∀ t, acc.rd_ok t p = false) → cpus.Nodup → p ∈ cpus →
      (∃ wr, accesses_to p (accesses_since s (itd_init acc cpus s).2) =
        [Access.rd p IA32_HW_FEEDBACK_THREAD_CONFIG false,
         Access.wr p IA32_HW_FEEDBACK_THREAD_CONFIG 0x1 wr]) ∧
      accesses_to p (accesses_since s (itd_exit acc cpus s)) =
        [Access.rd p IA32_HW_FEEDBACK_THREAD_CONFIG false] ∧
      ∀ m, (itd_exit acc cpus s).msr p m = s.msr p m) := by
  constructor
  · intro hrd
    refine ⟨?_, ?_, ?_, ?_⟩
    · rw [rdmsrl_on_cpu_val, hrd]; rfl
    · rw [itd_init_body_eq, hrd, init_events_rd_fail]
    · rw [itd_exit_body_eq, hrd, exit_events_rd_fail]
    · rw [itd_exit_body_eq, hrd]
      funext c m
      simp only [exit_reg_rd_fail, ite_self]
  · intro hrd hnd hp
    exact ⟨itd_init_visit_rd_fail acc cpus p s hrd hnd hp,
      itd_exit_visit_rd_fail acc cpus p s hrd hnd hp,
      fun m => itd_exit_msr_rd_fail acc cpus p hrd s m⟩

/-- Witness for C12: processors `0, 1` holding `0x3, 0x2`, every read failing
and every write succeeding. -/
theorem C12_failed_read_asymmetry_witness :
    [0, 1].Nodup ∧ 0 ∈ [0, 1] ∧
    accesses_to 0 (accesses_since (machine_of [0x3, 0x2])
      (itd_exit rd_fails_wr_ok [0, 1] (machine_of [0x3, 0x2])))
      = [Access.rd 0 IA32_HW_FEEDBACK_THREAD_CONFIG false] ∧
    accesses_to 0 (accesses_since (machine_of [0x3, 0x2])
      (itd_init rd_fails_wr_ok [0, 1] (machine_of [0x3, 0x2])).2)
      = [Access.rd 0 IA32_HW_FEEDBACK_THREAD_CONFIG false,
         Access.wr 0 IA32_HW_FEEDBACK_THREAD_CONFIG 0x1 true] ∧
    (itd_exit rd_fails_wr_ok [0, 1] (machine_of [0x3, 0x2])).cfg 0 = 0x3 ∧
    (itd_init rd_fails_wr_ok [0, 1] (machine_of [0x3, 0x2])).2.cfg 0 = 0x1 :=
  ⟨by decide, by decide,
   ((C12_failed_read_asymmetry rd_fails_wr_ok [0, 1] 0 (machine_of [0x3, 0x2])).2
      (fun _ => rfl) (by decide) (by decide)).2.1,
   by decide, by decide, by decide⟩

/-- C13 (Deactivation absorbs Activation).  With every access succeeding, the
registers after `itd_init` followed by `itd_exit` are the registers after
`itd_exit` alone from the same initial state: the configuration register of
every enumerated processor holds its initial value with bit 0 cleared, whatever
bit 0 was initially, and every other register is unchanged. -/
theorem C13_exit_absorbs_init (acc : Accessor) (cpus : List Nat) (s : Machine)
    (hok : ∀ t, ∀ c ∈ cpus, acc.rd_ok t c = true ∧ acc.wr_ok t c = true)
    (h64 : u64_on cpus s) :
    (itd_exit acc cpus (itd_init acc cpus s).2).msr = (itd_exit acc cpus s).msr ∧
    (∀ p ∈ cpus,
      (itd_exit acc cpus (itd_init acc cpus s).2).cfg p = s.cfg p &&& 0xFFFFFFFFFFFFFFFE ∧
      ((itd_exit acc cpus (itd_init acc cpus s).2).cfg p).testBit 0 = false ∧
      ∀ i, 1 ≤ i →
        ((itd_exit acc cpus (itd_init acc cpus s).2).cfg p).testBit i = (s.cfg p).testBit i) ∧
    (∀ c m, c ∉ cpus ∨ m ≠ IA32_HW_FEEDBACK_THREAD_CONFIG →
      (itd_exit acc cpus (itd_init acc cpus s).2).msr c m = s.msr c m) := by
  have h64' := itd_init_u64_on acc cpus s hok h64
  have hin : ∀ p ∈ cpus, (itd_exit acc cpus (itd_init acc cpus s).2).cfg p =
      s.cfg p &&& 0xFFFFFFFFFFFFFFFE := by
    intro p hp
    rw [itd_exit_cfg_ok acc cpus _ hok h64' p hp, itd_init_cfg_ok acc cpus s hok h64 p hp,
      or_one_and_mask]
  have hout : ∀ c m, c ∉ cpus ∨ m ≠ IA32_HW_FEEDBACK_THREAD_CONFIG →
      (itd_exit acc cpus (itd_init acc cpus s).2).msr c m = s.msr c m := by
    intro c m h
    rw [itd_exit_msr_frame acc cpus _ c m h, itd_init_msr_frame acc cpus s c m h]
  refine ⟨?_, ?_, hout⟩
  · funext c m
    by_cases h : c ∈ cpus ∧ m = IA32_HW_FEEDBACK_THREAD_CONFIG
    · obtain ⟨hc, rfl⟩ := h
      exact (hin c hc).trans (itd_exit_cfg_ok acc cpus s hok h64 c hc).symm
    · have h' : c ∉ cpus ∨ m ≠ IA32_HW_FEEDBACK_THREAD_CONFIG := by
        by_cases hc : c ∈ cpus
        · exact Or.inr (fun hm => h ⟨hc, hm⟩)
        · exact Or.inl hc
      rw [hout c m h', itd_exit_msr_frame acc cpus s c m h']
  · intro p hp
    rw [hin p hp]
    exact ⟨rfl, and_mask_testBit_zero _, fun i hi => and_mask_testBit_succ (h64 p hp) i hi⟩

/-- Witness for C13: registers `0x0, 0x2, 0x1`; both ways end in
`0x0, 0x2, 0x0`. -/
theorem C13_exit_absorbs_init_witness :
    u64_on [0, 1, 2] (machine_of [0x0, 0x2, 0x1]) ∧
    (itd_exit all_ok [0, 1, 2] (itd_init all_ok [0, 1, 2] (machine_of [0x0, 0x2, 0x1])).2).msr
      = (itd_exit all_ok [0, 1, 2] (machine_of [0x0, 0x2, 0x1])).msr ∧
    [0, 1, 2].map (itd_exit all_ok [0, 1, 2] (machine_of [0x0, 0x2, 0x1])).cfg
      = [0x0, 0x2, 0x0] :=
  ⟨by decide,
   (C13_exit_absorbs_init all_ok [0, 1, 2] (machine_of [0x0, 0x2, 0x1])
      (fun _ _ _ => ⟨rfl, rfl⟩) (by decide)).1,
   by decide⟩

end ITD
